import Mathlib

/-!
Verification of the bot-integration layer of this Zulip fork: the
service-bot event dispatcher, the per-bot key/value state store with
byte-size quotas (both modelled from the specification, since only their
tests ship under `src/`), and the Heroku webhook view
(`src/zerver/webhooks/heroku/view.py`).

The tests in `src/zerver/tests/test_service_bot_system.py` are the
authoritative code for the modelled parts: every modelled definition is
pinned so that the concrete scenarios of those tests evaluate exactly as
the tests assert (in particular the literal 134-byte quota message of
`test_storage_limit` and the marshalling behaviour of `test_marshaling`
and `test_invalid_calls`).
-/

namespace Zulip

set_option maxRecDepth 400000

/-! ## Service bot dispatcher -/

/-- Recipient topology of a message send, mirroring `Recipient.PERSONAL`,
`Recipient.STREAM`, `Recipient.HUDDLE` in `zerver.models`. -/
inductive RecipientType where
  | PERSONAL
  | STREAM
  | HUDDLE
deriving DecidableEq

/-- Bot category, mirroring `UserProfile.OUTGOING_WEBHOOK_BOT` and
`UserProfile.EMBEDDED_BOT`; `other` covers any further category value. -/
inductive BotCategory where
  | OUTGOING_WEBHOOK_BOT
  | EMBEDDED_BOT
  | other (code : Nat)
deriving DecidableEq

/-- Dispatch event record `\x7btrigger, user_profile_id\x7d`. -/
structure TriggerEvent where
  trigger : String
  user_profile_id : Nat
deriving DecidableEq

/-- Modelled from the spec: each bot category maps to exactly one logical
delivery channel name; unknown categories map to none (rule 6 of section 4.2).
Matches the `BOT_TYPE_TO_QUEUE_NAME` table of the tests. -/
def queue_name : BotCategory → Option String
  | .OUTGOING_WEBHOOK_BOT => some "outgoing_webhooks"
  | .EMBEDDED_BOT => some "embedded_bots"
  | .other _ => none

/-- Modelled from the spec: the event (if any) emitted for one bot id, given
the dispatch context (rules 2, 3, 5 of section 4.2). -/
def event_for (active_user_ids mentioned_user_ids : List Nat)
    (recipient_type : RecipientType) (bot_id : Nat) : Option TriggerEvent :=
  if recipient_type = .STREAM then
    if bot_id ∈ mentioned_user_ids then some ⟨"mention", bot_id⟩ else none
  else
    if bot_id ∈ active_user_ids then some ⟨"private_message", bot_id⟩ else none

/-- Events routed to one channel, in the order of `service_bot_tuples`. -/
def channel_events (service_bot_tuples : List (Nat × BotCategory))
    (active_user_ids mentioned_user_ids : List Nat)
    (recipient_type : RecipientType) (q : String) : List TriggerEvent :=
  service_bot_tuples.filterMap fun t =>
    if queue_name t.2 = some q then
      event_for active_user_ids mentioned_user_ids recipient_type t.1
    else none

/-- The two known delivery channel names. -/
def known_queue_names : List String := ["outgoing_webhooks", "embedded_bots"]

/-- Modelled from the spec: `get_service_bot_events` (absent from `src/`;
only its tests and callers ship there).  Produces a mapping from channel
name to the ordered list of trigger events; channels with zero events are
omitted (rule 7 of section 4.2).  The sender is not inspected here: per
rule 1 the sender-is-bot suppression is enforced by the caller. -/
def get_service_bot_events (service_bot_tuples : List (Nat × BotCategory))
    (active_user_ids mentioned_user_ids : List Nat)
    (recipient_type : RecipientType) : List (String × List TriggerEvent) :=
  (known_queue_names.map fun q =>
    (q, channel_events service_bot_tuples active_user_ids mentioned_user_ids
          recipient_type q)).filter fun p => !p.2.isEmpty

/-- Modelled from the spec: the caller of the dispatcher on the message-send
path; a message whose sender is itself a service bot is never handed to
dispatch (rule 1 of section 4.2). -/
def dispatch_message (sender_is_bot : Bool)
    (service_bot_tuples : List (Nat × BotCategory))
    (active_user_ids mentioned_user_ids : List Nat)
    (recipient_type : RecipientType) : List (String × List TriggerEvent) :=
  if sender_is_bot then []
  else get_service_bot_events service_bot_tuples active_user_ids
    mentioned_user_ids recipient_type

/-- Modelled from the spec: the publish boundary; the caller invokes
`publish(channel_name, event)` once per event returned by dispatch, in
mapping order then per-channel order. -/
def published_events (sender_is_bot : Bool)
    (service_bot_tuples : List (Nat × BotCategory))
    (active_user_ids mentioned_user_ids : List Nat)
    (recipient_type : RecipientType) : List (String × TriggerEvent) :=
  (dispatch_message sender_is_bot service_bot_tuples active_user_ids
      mentioned_user_ids recipient_type).flatMap fun p => p.2.map fun e => (p.1, e)

/-- Find the event list published to channel `q` (empty when the channel is
absent from the mapping). -/
def events_of (out : List (String × List TriggerEvent)) (q : String) :
    List TriggerEvent :=
  ((out.find? fun p => p.1 == q).map fun p => p.2).getD []

/-! ## Python values and the default marshal codec -/

/-- Python values a bot may hand to the state store: strings, integers,
lists and string-keyed dicts (the shapes the default structured codec
round-trips). -/
inductive PyValue where
  | str (s : String)
  | int (n : Int)
  | list (xs : List PyValue)
  | dict (xs : List (String × PyValue))

/-- Python `type(...)` rendering used in the state-store error messages. -/
def typeName : PyValue → String
  | .str _ => "<class 'str'>"
  | .int _ => "<class 'int'>"
  | .list _ => "<class 'list'>"
  | .dict _ => "<class 'dict'>"

/-- Opening brace character, written via its code point. -/
def lbrace : Char := Char.ofNat 123

/-- Closing brace character, written via its code point. -/
def rbrace : Char := Char.ofNat 125

/-- String escaping of the structured codec: quote and backslash are
escaped, every other character is emitted verbatim. -/
def escapeChar (c : Char) : List Char :=
  if c = '"' ∨ c = '\\' then ['\\', c] else [c]

/-- Encoded form of a string: a double-quoted, escaped character run. -/
def encStrChars (s : String) : List Char :=
  '"' :: (s.data.flatMap escapeChar) ++ ['"']

/-- Decimal digit characters. -/
def digitChar : Nat → Char
  | 0 => '0' | 1 => '1' | 2 => '2' | 3 => '3' | 4 => '4'
  | 5 => '5' | 6 => '6' | 7 => '7' | 8 => '8' | _ => '9'

/-- Fuelled most-significant-first decimal rendering of a positive number. -/
def natCharsAux : Nat → Nat → List Char
  | 0, _ => []
  | _ + 1, 0 => []
  | fuel + 1, n + 1 => natCharsAux fuel ((n + 1) / 10) ++ [digitChar ((n + 1) % 10)]

/-- Decimal rendering of a natural number. -/
def natChars (n : Nat) : List Char :=
  if n = 0 then ['0'] else natCharsAux n n

/-- Decimal rendering of an integer. -/
def encIntChars (i : Int) : List Char :=
  if i < 0 then '-' :: natChars i.natAbs else natChars i.natAbs

mutual

/-- Modelled from the spec: the default structured-object-to-text codec of
the state store (`StateHandler.marshal`, absent from `src/`), encoder side.
Separators are a comma-space and a colon-space, strings are double quoted;
pinned by `test_storage_limit`, whose literal byte counts require the
stored form of a plain string to be two characters longer than the raw
string. -/
def jsonEncodeL : PyValue → List Char
  | .str s => encStrChars s
  | .int i => encIntChars i
  | .list xs => '[' :: encList xs ++ [']']
  | .dict xs => lbrace :: encDict xs ++ [rbrace]

/-- Encoded form of the elements of a list value. -/
def encList : List PyValue → List Char
  | [] => []
  | [v] => jsonEncodeL v
  | v :: w :: rest => jsonEncodeL v ++ ',' :: ' ' :: encList (w :: rest)

/-- Encoded form of the entries of a dict value. -/
def encDict : List (String × PyValue) → List Char
  | [] => []
  | [(k, v)] => encStrChars k ++ ':' :: ' ' :: jsonEncodeL v
  | (k, v) :: e :: rest =>
    encStrChars k ++ ':' :: ' ' :: jsonEncodeL v ++ ',' :: ' ' :: encDict (e :: rest)

end

/-- Marshalled text of a Python value. -/
def jsonEncode (v : PyValue) : String := String.mk (jsonEncodeL v)

/-- Character-level digit test for the decoder. -/
def isDigitC (c : Char) : Bool := 48 ≤ c.toNat && c.toNat ≤ 57

/-- Numeric value of a digit character. -/
def digitVal (c : Char) : Nat := c.toNat - 48

/-- Greedily split a leading run of digits off a character list. -/
def takeDigits : List Char → (List Nat × List Char)
  | [] => ([], [])
  | c :: cs =>
    if isDigitC c then
      let p := takeDigits cs
      (digitVal c :: p.1, p.2)
    else ([], c :: cs)

/-- Decode a nonempty leading digit run as a natural number. -/
def parseNat (cs : List Char) : Option (Nat × List Char) :=
  match takeDigits cs with
  | ([], _) => none
  | (ds, rest) => some (Nat.ofDigits 10 ds.reverse, rest)

/-- Decode the body of a quoted string (the opening quote already
consumed), undoing `escapeChar`. -/
def parseStrAux : List Char → List Char → Option (String × List Char)
  | _, [] => none
  | acc, c :: cs =>
    if c = '"' then some (String.mk acc.reverse, cs)
    else if c = '\\' then
      match cs with
      | [] => none
      | c2 :: cs2 =>
        if c2 = '"' ∨ c2 = '\\' then parseStrAux (c2 :: acc) cs2 else none
    else parseStrAux (c :: acc) cs

mutual

/-- Decoder side of the structured codec: one value, returning the
unconsumed remainder.  The first argument is recursion fuel. -/
def parseVal : Nat → List Char → Option (PyValue × List Char)
  | 0, _ => none
  | _ + 1, [] => none
  | fuel + 1, c :: cs =>
    if c = '"' then
      (parseStrAux [] cs).map fun p => (.str p.1, p.2)
    else if c = '-' then
      (parseNat cs).map fun p => (.int (-(p.1 : Int)), p.2)
    else if c = '[' then
      match cs with
      | [] => none
      | c2 :: cs2 =>
        if c2 = ']' then some (.list [], cs2)
        else (parseListItems fuel cs).map fun p => (.list p.1, p.2)
    else if c = lbrace then
      match cs with
      | [] => none
      | c2 :: cs2 =>
        if c2 = rbrace then some (.dict [], cs2)
        else (parseDictItems fuel cs).map fun p => (.dict p.1, p.2)
    else if isDigitC c then
      (parseNat (c :: cs)).map fun p => (.int (p.1 : Int), p.2)
    else none

/-- Decode a nonempty comma-space separated value sequence up to the
closing bracket. -/
def parseListItems : Nat → List Char → Option (List PyValue × List Char)
  | 0, _ => none
  | fuel + 1, cs =>
    match parseVal fuel cs with
    | none => none
    | some (v, rest) =>
      match rest with
      | ']' :: r => some ([v], r)
      | ',' :: ' ' :: r2 =>
        match parseListItems fuel r2 with
        | none => none
        | some (vs, r3) => some (v :: vs, r3)
      | _ => none

/-- Decode a nonempty comma-space separated key-value sequence up to the
closing brace. -/
def parseDictItems : Nat → List Char → Option (List (String × PyValue) × List Char)
  | 0, _ => none
  | fuel + 1, cs =>
    match cs with
    | '"' :: cs1 =>
      match parseStrAux [] cs1 with
      | none => none
      | some (k, rest1) =>
        match rest1 with
        | ':' :: ' ' :: rest2 =>
          match parseVal fuel rest2 with
          | none => none
          | some (v, rest3) =>
            match rest3 with
            | [] => none
            | c :: r =>
              if c = rbrace then some ([(k, v)], r)
              else
                match c, r with
                | ',', ' ' :: r2 =>
                  match parseDictItems fuel r2 with
                  | none => none
                  | some (es, r3) => some ((k, v) :: es, r3)
                | _, _ => none
        | _ => none
    | _ => none

end

/-- Modelled from the spec: the default codec's decoder
(`StateHandler.demarshal`, absent from `src/`). -/
def jsonParse (s : String) : Option PyValue :=
  match parseVal (s.data.length + 1) s.data with
  | some (v, []) => some v
  | _ => none

/-- Replaceable marshal/demarshal pair of the state store (section 4.1:
duck-typed hooks, swappable per instance for testing). -/
structure Codec where
  marshal : PyValue → PyValue
  demarshal : String → Option PyValue

/-- Default codec: the structured-object-to-text codec. -/
def jsonCodec : Codec :=
  ⟨fun v => .str (jsonEncode v), jsonParse⟩

/-- Identity codec installed by `test_invalid_calls`
(`storage.marshal = lambda obj: obj`). -/
def identityCodec : Codec :=
  ⟨fun v => v, fun s => some (.str s)⟩

/-! ## Bot state store -/

/-- Persistence rows `(bot_id, key, stored_value)`, mirroring the
`BotUserStateData` table keyed by bot and key. -/
abbrev Storage := List (Nat × String × String)

/-- Stored value for `(bot_id, key)`, if present. -/
def lookupRow (db : Storage) (bot : Nat) (key : String) : Option String :=
  ((db.find? fun r => r.1 == bot && r.2.1 == key).map fun r => r.2.2)

/-- Total stored size of one bot's entries: the sum over its rows of key
length plus stored-value length. -/
def botUsage (db : Storage) (bot : Nat) : Nat :=
  ((db.filter fun r => r.1 == bot).map fun r => r.2.1.length + r.2.2.length).sum

/-- Stored size of the existing entry under `key`, or zero if absent. -/
def oldEntrySize (db : Storage) (bot : Nat) (key : String) : Nat :=
  match lookupRow db bot key with
  | some v => key.length + v.length
  | none => 0

/-- Insert-or-overwrite of one bot's entry (`get_or_create` then `save`):
the row under `(bot, key)` is replaced in place, or appended if absent. -/
def upsert : Storage → Nat → String → String → Storage
  | [], bot, key, stored => [(bot, key, stored)]
  | r :: rest, bot, key, stored =>
    if r.1 == bot && r.2.1 == key then (bot, key, stored) :: rest
    else r :: upsert rest bot key stored

/-- Modelled from the spec: the prospective total storage size `put`
compares against the limit.  The new entry is counted at the length of its
key plus the length of its raw (pre-marshal) value; existing entries are
counted at their stored sizes, the entry under the same key excluded.
Pinned by `test_storage_limit`: the first put (key length 22, raw value
length 78) must succeed at limit 100, and the failing put must report
exactly 134 bytes, which forces exactly this mixed accounting. -/
def prospectiveSize (db : Storage) (bot : Nat) (key : String) (rawLen : Nat) : Int :=
  (botUsage db bot : Int) + ((key.length + rawLen : Nat) : Int)
    - (oldEntrySize db bot key : Int)

/-- Failure modes of `put`, mirroring `StateHandlerError` (type and quota
messages) plus the Python `TypeError` a sizeless raw value would raise. -/
inductive PutError where
  | keyType (t : String)
  | valueType (t : String)
  | quota (n : Int) (limit : Nat)
  | unsized (t : String)
deriving DecidableEq

/-- Message text of a `StateHandlerError`, with the literal templates the
tests assert. -/
def errorMessage : PutError → String
  | .keyType t =>
    "Cannot set state. The key type is " ++ t ++ ", but it should be str."
  | .valueType t =>
    "Cannot set state. The value type is " ++ t ++ ", but it should be str."
  | .quota n limit =>
    "Cannot set state. Request would require " ++ toString n ++
      " bytes storage. The current storage limit is " ++ toString limit ++ "."
  | .unsized t => "object of type " ++ t ++ " has no len()"

/-- Python `len` of a raw value (`none` mirrors the `TypeError` raised for
unsized objects). -/
def pyLen : PyValue → Option Nat
  | .str s => some s.length
  | .int _ => none
  | .list xs => some xs.length
  | .dict xs => some xs.length

/-- Modelled from the spec: `StateHandler.put` (absent from `src/`).
Validates the key is a string, marshals the value, validates the marshalled
(stored) representation is a string — `test_marshaling` shows a dict is
accepted under the default codec, so the check is on the stored
representation, while `test_invalid_calls` shows it rejects a dict under
the identity codec — then enforces the quota via `prospectiveSize` and
upserts.  Any failure leaves the storage untouched. -/
def put (c : Codec) (limit : Nat) (db : Storage) (bot : Nat)
    (key value : PyValue) : Except PutError Storage :=
  match key with
  | .str k =>
    match c.marshal value with
    | .str stored =>
      match pyLen value with
      | none => .error (.unsized (typeName value))
      | some rawLen =>
        let n := prospectiveSize db bot k rawLen
        if n > (limit : Int) then .error (.quota n limit)
        else .ok (upsert db bot k stored)
    | m => .error (.valueType (typeName m))
  | _ => .error (.keyType (typeName key))

/-- State-transformer view of `put`: the storage after the call together
with the error, if any; a failing call returns the storage unchanged. -/
def putState (c : Codec) (limit : Nat) (db : Storage) (bot : Nat)
    (key value : PyValue) : Storage × Option PutError :=
  match put c limit db bot key value with
  | .ok db2 => (db2, none)
  | .error e => (db, some e)

/-- Failure modes of `get` and `remove`: `BotUserStateData.DoesNotExist`,
or a stored text the codec cannot decode. -/
inductive FetchError where
  | notFound
  | demarshalFailure
deriving DecidableEq

/-- Modelled from the spec: `StateHandler.get` — demarshalled value for
`(bot, key)`, `NotFound` if absent for this bot. -/
def get (c : Codec) (db : Storage) (bot : Nat) (key : String) :
    Except FetchError PyValue :=
  match lookupRow db bot key with
  | none => .error .notFound
  | some stored =>
    match c.demarshal stored with
    | some v => .ok v
    | none => .error .demarshalFailure

/-- Modelled from the spec: `StateHandler.contains` — boolean presence for
this bot's namespace; total, never raises. -/
def contains (db : Storage) (bot : Nat) (key : String) : Bool :=
  (lookupRow db bot key).isSome

/-- Modelled from the spec: `StateHandler.remove` — deletes this bot's
entry, `NotFound` if absent. -/
def remove (db : Storage) (bot : Nat) (key : String) : Except FetchError Storage :=
  if contains db bot key then
    .ok (db.filter fun r => !(r.1 == bot && r.2.1 == key))
  else .error .notFound

/-- State-transformer view of `remove`: a failing call returns the storage
unchanged. -/
def removeState (db : Storage) (bot : Nat) (key : String) :
    Storage × Option FetchError :=
  match remove db bot key with
  | .ok db2 => (db2, none)
  | .error e => (db, some e)

/-! ## Heroku webhook view (src/zerver/webhooks/heroku/view.py) -/

/-- Python `str.format` with positional `\x7b\x7d` placeholders, on
character lists. -/
def pyFormatL : List Char → List (List Char) → List Char
  | [], _ => []
  | [c], _ => [c]
  | c :: c2 :: cs2, args =>
    match args with
    | a :: args2 =>
      if c = lbrace ∧ c2 = rbrace then a ++ pyFormatL cs2 args2
      else c :: pyFormatL (c2 :: cs2) (a :: args2)
    | [] => c :: pyFormatL (c2 :: cs2) []

/-- The literal template of `api_heroku_webhook`. -/
def heroku_template : String :=
  "\x7b\x7d deployed version \x7b\x7d of [\x7b\x7d](\x7b\x7d)\n> \x7b\x7d"

/-- One stream message handed to `check_send_stream_message`:
stream name, topic and body. -/
structure StreamMessage where
  stream : String
  topic : String
  content : String
deriving DecidableEq

/-- Outcome of the webhook view: `json_success()` or the error response the
`REQ` decorator produces for a missing required parameter. -/
inductive WebhookResponse where
  | json_success
  | missing_param
deriving DecidableEq

/-- First value of a request parameter, as `REQ` fetches it. -/
def reqParam (params : List (String × String)) (name : String) : Option String :=
  ((params.find? fun p => p.1 == name).map fun p => p.2)

/-- Embedding of `api_heroku_webhook`: reads `stream` (default "heroku"),
`head`, `app`, `user`, `url`, `git_log`; formats the template; sends one
stream message with topic `app`; returns JSON success.  Missing required
parameters short-circuit with no message sent. -/
def api_heroku_webhook (params : List (String × String)) :
    List StreamMessage × WebhookResponse :=
  let stream := (reqParam params "stream").getD "heroku"
  match reqParam params "head", reqParam params "app", reqParam params "user",
      reqParam params "url", reqParam params "git_log" with
  | some head, some app, some user, some url, some git_log =>
    let content := String.mk (pyFormatL heroku_template.data
      [user.data, head.data, app.data, url.data, git_log.data])
    ([⟨stream, app, content⟩], .json_success)
  | _, _, _, _, _ => ([], .missing_param)

/-! ## Concrete scenario data from the tests -/

/-- Key of the capacity-filling entry in `test_storage_limit`. -/
def capacity_key : String := "capacity-filling entry"

/-- Bot 7's storage after the first put of `test_storage_limit`: the
capacity-filling entry (raw value of 78 `x`s) in its stored, marshalled
(quoted) form. -/
def capacity_db : Storage :=
  [(7, capacity_key, String.mk ('"' :: List.replicate 78 'x' ++ ['"']))]

/-- The structured value of `test_marshaling` and `test_invalid_calls`. -/
def sample_structured_value : PyValue :=
  .dict [("foo", .str "bar"), ("baz", .list [.int 42, .str "cux"])]

/-- Storage of `test_entry_removal` after the two puts. -/
def removal_db : Storage := [(7, "some key", "\"v\""), (7, "another key", "\"v\"")]

/-- Storage of `test_entry_removal` after removing `some key`. -/
def removal_db2 : Storage := [(7, "another key", "\"v\"")]

/-- Restatement of claim C2's accounting formula, following the claim's
words: the byte size of the serialized new entry (key plus marshalled
value) plus the stored sizes of this bot's existing entries, any entry
under the same key excluded.  Written only to be compared against the
accounting the store actually uses. -/
def claimedSerializedSize (c : Codec) (db : Storage) (bot : Nat) (k : String)
    (value : PyValue) : Int :=
  match c.marshal value with
  | .str stored =>
    (botUsage db bot : Int) + ((k.length + stored.length : Nat) : Int)
      - (oldEntrySize db bot k : Int)
  | _ => 0

/-- Admissible continuations after one encoded value: end of input, a
separating comma, or a closing bracket or brace.  The decoder reads digit
runs greedily, so the integer case needs the continuation to start with a
non-digit. -/
def restOk : List Char → Prop := fun cs =>
  match cs with
  | [] => True
  | c :: _ => c = ',' ∨ c = ']' ∨ c = rbrace

/-- Statement that one value decodes back from its encoding, whatever
well-formed continuation follows it and for any sufficient fuel. -/
def ParsesBack (v : PyValue) : Prop :=
  ∀ (fuel : Nat) (rest : List Char), restOk rest →
    (jsonEncodeL v).length ≤ fuel →
    parseVal fuel (jsonEncodeL v ++ rest) = some (v, rest)

/-! ## Dispatcher lemmas -/

theorem event_for_id (a m : List Nat) (rt : RecipientType) (b : Nat)
    (e : TriggerEvent) (h : event_for a m rt b = some e) :
    e.user_profile_id = b := by
  unfold event_for at h
  split at h <;> split at h <;> cases h <;> rfl

theorem mem_channel_events (t : List (Nat × BotCategory)) (a m : List Nat)
    (rt : RecipientType) (q : String) (e : TriggerEvent) :
    e ∈ channel_events t a m rt q ↔
      ∃ tu, tu ∈ t ∧ queue_name tu.2 = some q ∧
        event_for a m rt tu.1 = some e := by
  simp only [channel_events, List.mem_filterMap]
  constructor
  · rintro ⟨tu, htu, hf⟩
    by_cases hq : queue_name tu.2 = some q
    · rw [if_pos hq] at hf
      exact ⟨tu, htu, hq, hf⟩
    · rw [if_neg hq] at hf
      cases hf
  · rintro ⟨tu, htu, hq, he⟩
    exact ⟨tu, htu, by rw [if_pos hq]; exact he⟩

theorem mem_gsbe (t : List (Nat × BotCategory)) (a m : List Nat)
    (rt : RecipientType) (q : String) (evs : List TriggerEvent) :
    (q, evs) ∈ get_service_bot_events t a m rt ↔
      q ∈ known_queue_names ∧ evs = channel_events t a m rt q ∧ evs ≠ [] := by
  unfold get_service_bot_events known_queue_names
  by_cases h1 : (channel_events t a m rt "outgoing_webhooks").isEmpty <;>
    by_cases h2 : (channel_events t a m rt "embedded_bots").isEmpty <;>
    simp_all [List.isEmpty_iff] <;> aesop

theorem events_of_gsbe (t : List (Nat × BotCategory)) (a m : List Nat)
    (rt : RecipientType) (q : String) :
    events_of (get_service_bot_events t a m rt) q =
      if q ∈ known_queue_names then channel_events t a m rt q else [] := by
  by_cases hq1 : q = "outgoing_webhooks"
  · subst hq1
    unfold events_of get_service_bot_events known_queue_names
    by_cases h1 : (channel_events t a m rt "outgoing_webhooks").isEmpty <;>
      by_cases h2 : (channel_events t a m rt "embedded_bots").isEmpty <;>
      simp_all [List.isEmpty_iff]
  · by_cases hq2 : q = "embedded_bots"
    · subst hq2
      unfold events_of get_service_bot_events known_queue_names
      by_cases h1 : (channel_events t a m rt "outgoing_webhooks").isEmpty <;>
        by_cases h2 : (channel_events t a m rt "embedded_bots").isEmpty <;>
        simp_all [List.isEmpty_iff]
    · have hnot : q ∉ known_queue_names := by
        simp [known_queue_names, hq1, hq2]
      rw [if_neg hnot]
      unfold events_of
      have hfind : (get_service_bot_events t a m rt).find?
          (fun p => p.1 == q) = none := by
        rw [List.find?_eq_none]
        intro p hp
        have hqk := ((mem_gsbe t a m rt p.1 p.2).1 (by simpa using hp)).1
        simp only [beq_iff_eq]
        intro hc
        exact hnot (hc ▸ hqk)
      rw [hfind]
      rfl

theorem sublist_filterMap_mono {α β : Type} (f g : α → Option β)
    (h : ∀ x e, f x = some e → g x = some e) :
    ∀ l : List α, (l.filterMap f).Sublist (l.filterMap g) := by
  intro l
  induction l with
  | nil => simp
  | cons x tl ih =>
    cases hf : f x with
    | none =>
      rw [List.filterMap_cons, hf]
      cases hg : g x with
      | none => rw [List.filterMap_cons, hg]; exact ih
      | some e => rw [List.filterMap_cons, hg]; exact ih.cons _
    | some e =>
      rw [List.filterMap_cons, hf, List.filterMap_cons, h x e hf]
      exact ih.cons₂ _

theorem channel_events_ids (t : List (Nat × BotCategory)) (a m : List Nat)
    (rt : RecipientType) (q : String) (e : TriggerEvent)
    (h : e ∈ channel_events t a m rt q) :
    e.user_profile_id ∈ t.map Prod.fst := by
  rcases (mem_channel_events t a m rt q e).1 h with ⟨tu, htu, _, he⟩
  rw [event_for_id a m rt tu.1 e he]
  exact List.mem_map_of_mem Prod.fst htu

theorem channel_filter_nil (t : List (Nat × BotCategory)) (a m : List Nat)
    (rt : RecipientType) (q : String) (b : Nat)
    (hb : b ∉ t.map Prod.fst) :
    (channel_events t a m rt q).filter (fun e => e.user_profile_id == b) = [] := by
  rw [List.filter_eq_nil_iff]
  intro e he
  have := channel_events_ids t a m rt q e he
  simp only [beq_iff_eq]
  intro hc
  exact hb (hc ▸ this)

theorem channel_events_cons (tu : Nat × BotCategory)
    (tl : List (Nat × BotCategory)) (a m : List Nat) (rt : RecipientType)
    (q : String) :
    channel_events (tu :: tl) a m rt q =
      (if queue_name tu.2 = some q then event_for a m rt tu.1
        else none).toList ++ channel_events tl a m rt q := by
  simp only [channel_events, List.filterMap_cons]
  split <;> rename_i h
  · rw [h]; rfl
  · rw [h]; rfl

theorem twoChanCount (a m : List Nat) (rt : RecipientType) (b : Nat) :
    ∀ t : List (Nat × BotCategory), (t.map Prod.fst).Nodup →
      ((channel_events t a m rt "outgoing_webhooks").filter
          fun e => e.user_profile_id == b).length
        + ((channel_events t a m rt "embedded_bots").filter
          fun e => e.user_profile_id == b).length ≤ 1 := by
  intro t
  induction t with
  | nil => simp [channel_events]
  | cons tu tl ih =>
    intro hnd
    have hnd2 : (tl.map Prod.fst).Nodup := by
      simpa using (List.nodup_cons.1 (by simpa using hnd)).2
    have hni : tu.1 ∉ tl.map Prod.fst :=
      (List.nodup_cons.1 (by simpa using hnd)).1
    rw [channel_events_cons tu tl a m rt "outgoing_webhooks",
      channel_events_cons tu tl a m rt "embedded_bots",
      List.filter_append, List.filter_append, List.length_append,
      List.length_append]
    cases hev : event_for a m rt tu.1 with
    | none =>
      simp only [hev, ite_self, Option.toList_none, List.filter_nil,
        List.length_nil]
      have := ih hnd2
      omega
    | some e =>
      have hid : e.user_profile_id = tu.1 := event_for_id a m rt tu.1 e hev
      by_cases hb : tu.1 = b
      · subst hb
        have h1 := channel_filter_nil tl a m rt "outgoing_webhooks" tu.1 hni
        have h2 := channel_filter_nil tl a m rt "embedded_bots" tu.1 hni
        cases hcat : tu.2 with
        | OUTGOING_WEBHOOK_BOT =>
          simp [hcat, queue_name, hev, hid, h1, h2]
        | EMBEDDED_BOT =>
          simp [hcat, queue_name, hev, hid, h1, h2]
        | other k =>
          simp only [hcat, queue_name]
          have := ih hnd2
          simp only [reduceCtorEq, if_false, Option.toList_none,
            List.filter_nil, List.length_nil]
          omega
      · have hpred : (e.user_profile_id == b) = false := by
          simp [hid, hb]
        have := ih hnd2
        cases hcat : tu.2 with
        | OUTGOING_WEBHOOK_BOT =>
          simp only [hcat, queue_name, hev]
          simp [hpred]
          omega
        | EMBEDDED_BOT =>
          simp only [hcat, queue_name, hev]
          simp [hpred]
          omega
        | other k =>
          simp only [hcat, queue_name, reduceCtorEq, if_false,
            Option.toList_none, List.filter_nil, List.length_nil]
          omega

theorem gsbe_flatMap_filter (t : List (Nat × BotCategory)) (a m : List Nat)
    (rt : RecipientType) (pred : TriggerEvent → Bool) :
    ((get_service_bot_events t a m rt).flatMap fun p => p.2.filter pred) =
      (channel_events t a m rt "outgoing_webhooks").filter pred ++
        (channel_events t a m rt "embedded_bots").filter pred := by
  unfold get_service_bot_events known_queue_names
  by_cases h1 : (channel_events t a m rt "outgoing_webhooks").isEmpty <;>
    by_cases h2 : (channel_events t a m rt "embedded_bots").isEmpty <;>
    simp_all [List.isEmpty_iff]

/-- Claim C1: for every call to `get_service_bot_events`, a bot of a tuple
with a known category receives a `private_message` event in its category's
channel when the topology is personal or huddle and it is an active
recipient, a `mention` event when the topology is stream and it is
mentioned; no other events are produced; at most one event per bot per call
(the tuples listing each bot once); events within a channel keep the order
of `service_bot_tuples`; channels with zero events are absent. -/
theorem C1_dispatch_rules (t : List (Nat × BotCategory)) (a m : List Nat)
    (rt : RecipientType) :
    (∀ b cat q, (b, cat) ∈ t → queue_name cat = some q →
      (rt = .PERSONAL ∨ rt = .HUDDLE) → b ∈ a →
      (⟨"private_message", b⟩ : TriggerEvent) ∈
        events_of (get_service_bot_events t a m rt) q)
    ∧ (∀ b cat q, (b, cat) ∈ t → queue_name cat = some q →
      rt = .STREAM → b ∈ m →
      (⟨"mention", b⟩ : TriggerEvent) ∈
        events_of (get_service_bot_events t a m rt) q)
    ∧ (∀ q evs, (q, evs) ∈ get_service_bot_events t a m rt → ∀ e ∈ evs,
      ∃ cat, (e.user_profile_id, cat) ∈ t ∧ queue_name cat = some q ∧
        event_for a m rt e.user_profile_id = some e)
    ∧ ((t.map Prod.fst).Nodup → ∀ b : Nat,
      ((get_service_bot_events t a m rt).flatMap fun p =>
        p.2.filter fun e => e.user_profile_id == b).length ≤ 1)
    ∧ (∀ q evs, (q, evs) ∈ get_service_bot_events t a m rt →
      evs.Sublist (t.filterMap fun tu => event_for a m rt tu.1))
    ∧ (∀ q evs, (q, evs) ∈ get_service_bot_events t a m rt → evs ≠ []) := by
  have hqmem : ∀ cat q, queue_name cat = some q → q ∈ known_queue_names := by
    intro cat q h
    cases cat <;> simp_all [queue_name, known_queue_names]
  refine ⟨?_, ?_, ?_, ?_, ?_, ?_⟩
  · intro b cat q hmem hq hrt hb
    have hev : event_for a m rt b = some ⟨"private_message", b⟩ := by
      rcases hrt with h | h <;> subst h <;> simp [event_for, hb]
    rw [events_of_gsbe, if_pos (hqmem cat q hq)]
    exact (mem_channel_events t a m rt q _).2 ⟨(b, cat), hmem, hq, hev⟩
  · intro b cat q hmem hq hrt hb
    subst hrt
    have hev : event_for a m .STREAM b = some ⟨"mention", b⟩ := by
      simp [event_for, hb]
    rw [events_of_gsbe, if_pos (hqmem cat q hq)]
    exact (mem_channel_events t a m .STREAM q _).2 ⟨(b, cat), hmem, hq, hev⟩
  · intro q evs hmem e he
    rcases (mem_gsbe t a m rt q evs).1 hmem with ⟨_, heq, _⟩
    subst heq
    rcases (mem_channel_events t a m rt q e).1 he with ⟨tu, htu, hq, hev⟩
    have hid := event_for_id a m rt tu.1 e hev
    exact ⟨tu.2, by rw [hid]; exact htu, hq, by rw [hid]; exact hev⟩
  · intro hnd b
    rw [gsbe_flatMap_filter, List.length_append]
    exact twoChanCount a m rt b t hnd
  · intro q evs hmem
    rcases (mem_gsbe t a m rt q evs).1 hmem with ⟨_, heq, _⟩
    subst heq
    exact sublist_filterMap_mono _ _
      (by
        intro tu e hf
        by_cases hq : queue_name tu.2 = some q
        · rw [if_pos hq] at hf; exact hf
        · rw [if_neg hq] at hf; cases hf) t
  · intro q evs hmem
    exact ((mem_gsbe t a m rt q evs).1 hmem).2.2

/-- Claim C1 witness: the personal-message scenario of
`test_service_events_for_pms`: one outgoing-webhook bot (id 5) among the
active recipients yields its `private_message` event in the
`outgoing_webhooks` channel. -/
theorem C1_dispatch_rules_witness :
    (⟨"private_message", 5⟩ : TriggerEvent) ∈
      events_of (get_service_bot_events [(5, .OUTGOING_WEBHOOK_BOT)] [5] []
        .PERSONAL) "outgoing_webhooks" :=
  (C1_dispatch_rules [(5, .OUTGOING_WEBHOOK_BOT)] [5] [] .PERSONAL).1
    5 .OUTGOING_WEBHOOK_BOT "outgoing_webhooks" (by simp) rfl (Or.inl rfl)
    (by simp)

/-- Claim C6: a message whose sender is itself a service bot produces no
dispatch events and publishes nothing to any bot channel, whatever the
tuples, recipient set, mention set or topology. -/
theorem C6_bot_sender_suppression (t : List (Nat × BotCategory))
    (a m : List Nat) (rt : RecipientType) :
    dispatch_message true t a m rt = [] ∧
      published_events true t a m rt = [] := by
  constructor <;> simp [dispatch_message, published_events]

/-! ## State store lemmas -/

theorem lookupRow_nil (bot : Nat) (key : String) : lookupRow [] bot key = none := rfl

theorem lookupRow_cons (r : Nat × String × String) (t : Storage) (bot : Nat)
    (key : String) :
    lookupRow (r :: t) bot key =
      if r.1 == bot && r.2.1 == key then some r.2.2 else lookupRow t bot key := by
  unfold lookupRow
  cases hc : (r.1 == bot && r.2.1 == key) <;> simp [List.find?_cons, hc]

theorem lookupRow_upsert_self (bot : Nat) (key stored : String) :
    ∀ db : Storage, lookupRow (upsert db bot key stored) bot key = some stored := by
  intro db
  induction db with
  | nil => simp [upsert, lookupRow_cons, lookupRow_nil]
  | cons r t ih =>
    by_cases h : (r.1 == bot && r.2.1 == key) = true
    · rw [upsert, if_pos h, lookupRow_cons]
      simp
    · rw [upsert, if_neg h, lookupRow_cons, if_neg h]
      exact ih

theorem lookupRow_upsert_ne (bot bot2 : Nat) (key key2 stored : String)
    (h : ¬ (bot2 = bot ∧ key2 = key)) :
    ∀ db : Storage,
      lookupRow (upsert db bot key stored) bot2 key2 = lookupRow db bot2 key2 := by
  have hcond : ((bot : Nat) == bot2 && (key : String) == key2) = false := by
    cases Decidable.em (bot = bot2) with
    | inl h1 =>
      cases Decidable.em (key = key2) with
      | inl h2 => exact absurd ⟨h1.symm, h2.symm⟩ h
      | inr h2 => simp [h2]
    | inr h1 => simp [h1]
  intro db
  induction db with
  | nil => simp [upsert, lookupRow_cons, lookupRow_nil, hcond]
  | cons r t ih =>
    by_cases hr : (r.1 == bot && r.2.1 == key) = true
    · obtain ⟨hr1, hr2⟩ : r.1 = bot ∧ r.2.1 = key := by simpa using hr
      rw [upsert, if_pos hr, lookupRow_cons, lookupRow_cons]
      rw [hr1, hr2, hcond]
      simp
    · rw [upsert, if_neg hr, lookupRow_cons, lookupRow_cons]
      by_cases hc : (r.1 == bot2 && r.2.1 == key2) = true
      · rw [if_pos hc, if_pos hc]
      · rw [if_neg hc, if_neg hc]
        exact ih

theorem botUsage_nil (bot : Nat) : botUsage [] bot = 0 := rfl

theorem botUsage_cons (r : Nat × String × String) (t : Storage) (bot : Nat) :
    botUsage (r :: t) bot =
      (if r.1 == bot then r.2.1.length + r.2.2.length else 0) + botUsage t bot := by
  unfold botUsage
  cases hc : (r.1 == bot) <;> simp [List.filter_cons, hc]

theorem botUsage_upsert_ne_bot (bot bot2 : Nat) (key stored : String)
    (h : bot2 ≠ bot) :
    ∀ db : Storage, botUsage (upsert db bot key stored) bot2 = botUsage db bot2 := by
  have hb : ((bot : Nat) == bot2) = false := by
    simp
    exact fun hh => h hh.symm
  intro db
  induction db with
  | nil => simp [upsert, botUsage_cons, botUsage_nil, hb]
  | cons r t ih =>
    by_cases hr : (r.1 == bot && r.2.1 == key) = true
    · obtain ⟨hr1, hr2⟩ : r.1 = bot ∧ r.2.1 = key := by simpa using hr
      rw [upsert, if_pos hr, botUsage_cons, botUsage_cons]
      rw [hr1, hr2, hb]
      simp
    · rw [upsert, if_neg hr, botUsage_cons, botUsage_cons, ih]

theorem botUsage_upsert_self (bot : Nat) (key stored : String) :
    ∀ db : Storage,
      (botUsage (upsert db bot key stored) bot : Int) =
        (botUsage db bot : Int) - (oldEntrySize db bot key : Int)
          + (key.length + stored.length : Nat) := by
  intro db
  induction db with
  | nil => simp [upsert, botUsage_cons, botUsage_nil, oldEntrySize, lookupRow_nil]
  | cons r t ih =>
    by_cases hr : (r.1 == bot && r.2.1 == key) = true
    · obtain ⟨hr1, hr2⟩ : r.1 = bot ∧ r.2.1 = key := by simpa using hr
      rw [upsert, if_pos hr, botUsage_cons, botUsage_cons]
      unfold oldEntrySize
      rw [lookupRow_cons, if_pos hr, hr1, hr2]
      simp
      omega
    · rw [upsert, if_neg hr, botUsage_cons, botUsage_cons]
      unfold oldEntrySize
      rw [lookupRow_cons, if_neg hr]
      unfold oldEntrySize at ih
      by_cases hb : (r.1 == bot) = true
      · rw [if_pos hb]
        push_cast
        push_cast at ih
        omega
      · rw [if_neg hb]
        push_cast
        push_cast at ih
        omega

theorem put_spec (c : Codec) (limit : Nat) (db : Storage) (bot : Nat)
    (k : String) (value : PyValue) (stored : String) (rawLen : Nat)
    (hm : c.marshal value = .str stored) (hl : pyLen value = some rawLen) :
    put c limit db bot (.str k) value =
      if prospectiveSize db bot k rawLen > (limit : Int)
        then .error (.quota (prospectiveSize db bot k rawLen) limit)
        else .ok (upsert db bot k stored) := by
  unfold put
  rw [hm, hl]

theorem put_ok_elim (c : Codec) (limit : Nat) (db : Storage) (bot : Nat)
    (key value : PyValue) (db2 : Storage)
    (h : put c limit db bot key value = .ok db2) :
    ∃ k stored rawLen, key = .str k ∧ c.marshal value = .str stored ∧
      pyLen value = some rawLen ∧
      prospectiveSize db bot k rawLen ≤ (limit : Int) ∧
      db2 = upsert db bot k stored := by
  cases key with
  | str k =>
    cases hm : c.marshal value with
    | str stored =>
      cases hl : pyLen value with
      | none =>
        unfold put at h
        rw [hm, hl] at h
        cases h
      | some rawLen =>
        rw [put_spec c limit db bot k value stored rawLen hm hl] at h
        by_cases hq : prospectiveSize db bot k rawLen > (limit : Int)
        · rw [if_pos hq] at h
          cases h
        · rw [if_neg hq] at h
          cases h
          exact ⟨k, stored, rawLen, rfl, rfl, rfl, not_lt.1 hq, rfl⟩
    | int n =>
      unfold put at h
      rw [hm] at h
      cases h
    | list xs =>
      unfold put at h
      rw [hm] at h
      cases h
    | dict xs =>
      unfold put at h
      rw [hm] at h
      cases h
  | int n => cases h
  | list xs => cases h
  | dict xs => cases h

/-! ## Codec round-trip lemmas -/

theorem pyInduction (P : PyValue → Prop) (h1 : ∀ s, P (.str s))
    (h2 : ∀ n, P (.int n))
    (h3 : ∀ xs, (∀ v ∈ xs, P v) → P (.list xs))
    (h4 : ∀ xs, (∀ p ∈ xs, P (Prod.snd p)) → P (.dict xs)) : ∀ v, P v := by
  have key : ∀ n (v : PyValue), sizeOf v ≤ n → P v := by
    intro n
    induction n with
    | zero =>
      intro v hv
      cases v <;> simp at hv
    | succ n ih =>
      intro v hv
      cases v with
      | str s => exact h1 s
      | int i => exact h2 i
      | list xs =>
        refine h3 xs fun w hw => ih w ?_
        have hlt := List.sizeOf_lt_of_mem hw
        simp at hv
        omega
      | dict xs =>
        refine h4 xs fun p hp => ih p.2 ?_
        have hlt := List.sizeOf_lt_of_mem hp
        have hp2 : sizeOf p.2 < sizeOf p := by
          cases p with
          | mk a b => simp
        simp at hv
        omega
  exact fun v => key (sizeOf v) v le_rfl

theorem string_mk_data (s : String) : String.mk s.data = s := rfl

theorem parseStrAux_cons (acc : List Char) (c : Char) (cs : List Char) :
    parseStrAux acc (c :: cs) =
      if c = '"' then some (String.mk acc.reverse, cs)
      else if c = '\\' then
        match cs with
        | [] => none
        | c2 :: cs2 =>
          if c2 = '"' ∨ c2 = '\\' then parseStrAux (c2 :: acc) cs2 else none
      else parseStrAux (c :: acc) cs := by
  rw [parseStrAux.eq_def]

theorem parseStrAux_flat (l : List Char) :
    ∀ (acc rest : List Char),
      parseStrAux acc (l.flatMap escapeChar ++ '"' :: rest) =
        some (String.mk (acc.reverse ++ l), rest) := by
  induction l with
  | nil =>
    intro acc rest
    rw [show ([] : List Char).flatMap escapeChar ++ '"' :: rest =
      '"' :: rest from rfl]
    rw [parseStrAux_cons, if_pos rfl]
    simp
  | cons c l ih =>
    intro acc rest
    by_cases hc : c = '"' ∨ c = '\\'
    · have hstep : (c :: l).flatMap escapeChar ++ '"' :: rest =
          '\\' :: c :: (l.flatMap escapeChar ++ '"' :: rest) := by
        simp [escapeChar, if_pos hc]
      rw [hstep, parseStrAux_cons]
      rw [if_neg (by decide : ¬ ('\\' : Char) = '"'), if_pos rfl]
      rw [show (match c :: (l.flatMap escapeChar ++ '"' :: rest) with
        | [] => none
        | c2 :: cs2 =>
          if c2 = '"' ∨ c2 = '\\' then parseStrAux (c2 :: acc) cs2
          else none) =
        if c = '"' ∨ c = '\\' then
          parseStrAux (c :: acc) (l.flatMap escapeChar ++ '"' :: rest)
        else none from rfl]
      rw [if_pos hc, ih (c :: acc) rest]
      simp
    · have he : escapeChar c = [c] := by rw [escapeChar, if_neg hc]
      push_neg at hc
      have hstep : (c :: l).flatMap escapeChar ++ '"' :: rest =
          c :: (l.flatMap escapeChar ++ '"' :: rest) := by
        simp [he]
      rw [hstep, parseStrAux_cons, if_neg hc.1, if_neg hc.2]
      rw [ih (c :: acc) rest]
      simp

theorem digitChar_props (d : Nat) (h : d < 10) :
    isDigitC (digitChar d) = true ∧ digitVal (digitChar d) = d ∧
      digitChar d ≠ '"' ∧ digitChar d ≠ '-' ∧ digitChar d ≠ '[' ∧
      digitChar d ≠ lbrace ∧ digitChar d ≠ ']' ∧ digitChar d ≠ rbrace ∧
      digitChar d ≠ ',' := by
  interval_cases d <;> exact ⟨rfl, rfl, by decide, by decide, by decide,
    by decide, by decide, by decide, by decide⟩

theorem natCharsAux_zero : ∀ fuel, natCharsAux fuel 0 = [] := by
  intro fuel
  cases fuel <;> rfl

theorem natCharsAux_eq :
    ∀ (fuel n : Nat), 0 < n → n ≤ fuel →
      natCharsAux fuel n = (Nat.digits 10 n).reverse.map digitChar := by
  intro fuel
  induction fuel with
  | zero => intro n h1 h2; omega
  | succ f ih =>
    intro n h1 h2
    cases n with
    | zero => omega
    | succ m =>
      rw [natCharsAux]
      rw [Nat.digits_def' (by norm_num : (1 : Nat) < 10) h1]
      rw [List.reverse_cons, List.map_append]
      congr 1
      by_cases hq : (m + 1) / 10 = 0
      · rw [hq, natCharsAux_zero]
        simp
      · have hlt : (m + 1) / 10 < m + 1 :=
          Nat.div_lt_self (Nat.succ_pos m) (by norm_num)
        exact ih ((m + 1) / 10) (Nat.pos_of_ne_zero hq) (by omega)

theorem natChars_eq (n : Nat) :
    natChars n =
      (if n = 0 then [0] else (Nat.digits 10 n).reverse).map digitChar := by
  unfold natChars
  by_cases h : n = 0
  · rw [if_pos h, if_pos h]
    rfl
  · rw [if_neg h, if_neg h]
    exact natCharsAux_eq n n (Nat.pos_of_ne_zero h) le_rfl

theorem natChars_digits_bound (n : Nat) :
    ∀ d ∈ (if n = 0 then [0] else (Nat.digits 10 n).reverse), d < 10 := by
  intro d hd
  by_cases h : n = 0
  · rw [if_pos h] at hd
    simp at hd
    omega
  · rw [if_neg h] at hd
    exact Nat.digits_lt_base (by norm_num) (List.mem_reverse.1 hd)

theorem restOk_not_digit (rest : List Char) (h : restOk rest) :
    ∀ c t, rest = c :: t → isDigitC c = false := by
  intro c t hr
  subst hr
  rcases h with h | h | h <;> subst h <;> decide

theorem takeDigits_spec (ds : List Nat) (hds : ∀ d ∈ ds, d < 10) :
    ∀ rest : List Char, (∀ c t, rest = c :: t → isDigitC c = false) →
      takeDigits (ds.map digitChar ++ rest) = (ds, rest) := by
  induction ds with
  | nil =>
    intro rest hrest
    cases rest with
    | nil => rfl
    | cons c t =>
      have := hrest c t rfl
      simp [takeDigits, this]
  | cons d ds ih =>
    intro rest hrest
    obtain ⟨hdig, hval, -⟩ := digitChar_props d (hds d (by simp))
    have hih := ih (fun x hx => hds x (by simp [hx])) rest hrest
    simp only [List.map_cons, List.cons_append, takeDigits, hdig, if_true,
      List.append_eq]
    rw [hih, hval]

theorem parseNat_natChars (n : Nat) (rest : List Char)
    (h : ∀ c t, rest = c :: t → isDigitC c = false) :
    parseNat (natChars n ++ rest) = some (n, rest) := by
  rw [natChars_eq]
  unfold parseNat
  rw [takeDigits_spec _ (natChars_digits_bound n) rest h]
  by_cases h0 : n = 0
  · subst h0
    rfl
  · rw [if_neg h0]
    cases hds : (Nat.digits 10 n).reverse with
    | nil =>
      exfalso
      exact (Nat.digits_ne_nil_iff_ne_zero.2 h0) (by simpa using hds)
    | cons d t =>
      have : Nat.ofDigits 10 ((d :: t).reverse : List Nat) = n := by
        rw [← hds, List.reverse_reverse]
        exact_mod_cast Nat.ofDigits_digits 10 n
      simp only [this]

theorem parseVal_succ (fuel : Nat) (c : Char) (cs : List Char) :
    parseVal (fuel + 1) (c :: cs) =
      if c = '"' then
        (parseStrAux [] cs).map fun p => (.str p.1, p.2)
      else if c = '-' then
        (parseNat cs).map fun p => (.int (-(p.1 : Int)), p.2)
      else if c = '[' then
        match cs with
        | [] => none
        | c2 :: cs2 =>
          if c2 = ']' then some (.list [], cs2)
          else (parseListItems fuel cs).map fun p => (.list p.1, p.2)
      else if c = lbrace then
        match cs with
        | [] => none
        | c2 :: cs2 =>
          if c2 = rbrace then some (.dict [], cs2)
          else (parseDictItems fuel cs).map fun p => (.dict p.1, p.2)
      else if isDigitC c then
        (parseNat (c :: cs)).map fun p => (.int (p.1 : Int), p.2)
      else none := by
  rw [parseVal.eq_def]

theorem parseListItems_succ (fuel : Nat) (cs : List Char) :
    parseListItems (fuel + 1) cs =
      match parseVal fuel cs with
      | none => none
      | some (v, rest) =>
        match rest with
        | ']' :: r => some ([v], r)
        | ',' :: ' ' :: r2 =>
          match parseListItems fuel r2 with
          | none => none
          | some (vs, r3) => some (v :: vs, r3)
        | _ => none := by
  rw [parseListItems.eq_def]

theorem parseDictItems_succ (fuel : Nat) (cs : List Char) :
    parseDictItems (fuel + 1) cs =
      match cs with
      | '"' :: cs1 =>
        match parseStrAux [] cs1 with
        | none => none
        | some (k, rest1) =>
          match rest1 with
          | ':' :: ' ' :: rest2 =>
            match parseVal fuel rest2 with
            | none => none
            | some (v, rest3) =>
              match rest3 with
              | [] => none
              | c :: r =>
                if c = rbrace then some ([(k, v)], r)
                else
                  match c, r with
                  | ',', ' ' :: r2 =>
                    match parseDictItems fuel r2 with
                    | none => none
                    | some (es, r3) => some ((k, v) :: es, r3)
                  | _, _ => none
          | _ => none
      | _ => none := by
  rw [parseDictItems.eq_def]

theorem jsonEncodeL_str (t : String) : jsonEncodeL (.str t) = encStrChars t := by
  rw [jsonEncodeL.eq_def]

theorem jsonEncodeL_int (i : Int) : jsonEncodeL (.int i) = encIntChars i := by
  rw [jsonEncodeL.eq_def]

theorem jsonEncodeL_list (xs : List PyValue) :
    jsonEncodeL (.list xs) = '[' :: encList xs ++ [']'] := by
  rw [jsonEncodeL.eq_def]

theorem jsonEncodeL_dict (xs : List (String × PyValue)) :
    jsonEncodeL (.dict xs) = lbrace :: encDict xs ++ [rbrace] := by
  rw [jsonEncodeL.eq_def]

theorem encList_one (v : PyValue) : encList [v] = jsonEncodeL v := by
  rw [encList.eq_def]

theorem encList_cons2 (v w : PyValue) (rest : List PyValue) :
    encList (v :: w :: rest) = jsonEncodeL v ++ ',' :: ' ' :: encList (w :: rest) := by
  rw [encList.eq_def]

theorem encDict_one (k : String) (v : PyValue) :
    encDict [(k, v)] = encStrChars k ++ ':' :: ' ' :: jsonEncodeL v := by
  rw [encDict.eq_def]

theorem encDict_cons2 (k : String) (v : PyValue) (e : String × PyValue)
    (rest : List (String × PyValue)) :
    encDict ((k, v) :: e :: rest) =
      encStrChars k ++ ':' :: ' ' :: jsonEncodeL v ++ ',' :: ' ' :: encDict (e :: rest) := by
  rw [encDict.eq_def]

theorem jsonEncodeL_head (v : PyValue) :
    ∃ c t, jsonEncodeL v = c :: t ∧ c ≠ ']' ∧ c ≠ rbrace ∧ c ≠ ',' := by
  cases v with
  | str t =>
    exact ⟨'"', _, jsonEncodeL_str t, by decide, by decide, by decide⟩
  | int i =>
    rw [jsonEncodeL_int, encIntChars]
    by_cases hi : i < 0
    · rw [if_pos hi]
      exact ⟨'-', _, rfl, by decide, by decide, by decide⟩
    · rw [if_neg hi, natChars_eq]
      cases hd : (if i.natAbs = 0 then [0] else (Nat.digits 10 i.natAbs).reverse) with
      | nil =>
        exfalso
        by_cases h0 : i.natAbs = 0
        · rw [if_pos h0] at hd
          cases hd
        · rw [if_neg h0] at hd
          exact (Nat.digits_ne_nil_iff_ne_zero.2 h0) (by simpa using hd)
      | cons d ds =>
        have hdlt : d < 10 := natChars_digits_bound i.natAbs d (by rw [hd]; simp)
        obtain ⟨-, -, -, -, -, -, hne1, hne2, hne3⟩ := digitChar_props d hdlt
        exact ⟨digitChar d, ds.map digitChar, rfl, hne1, hne2, hne3⟩
  | list xs =>
    exact ⟨'[', _, jsonEncodeL_list xs, by decide, by decide, by decide⟩
  | dict xs =>
    exact ⟨lbrace, _, jsonEncodeL_dict xs, by decide, by decide, by decide⟩

theorem encList_nil : encList [] = [] := by
  rw [encList.eq_def]

theorem encDict_nil : encDict [] = [] := by
  rw [encDict.eq_def]

theorem parseListItems_enc :
    ∀ (xs : List PyValue), xs ≠ [] → (∀ v ∈ xs, ParsesBack v) →
      ∀ (fuel : Nat) (rest : List Char), restOk rest →
        (encList xs).length < fuel →
        parseListItems fuel (encList xs ++ ']' :: rest) = some (xs, rest) := by
  intro xs
  induction xs with
  | nil => intro h; exact absurd rfl h
  | cons x xs ih =>
    intro _ hPB fuel rest hrest hlen
    cases xs with
    | nil =>
      cases fuel with
      | zero => omega
      | succ f =>
        rw [encList_one] at hlen ⊢
        rw [parseListItems_succ]
        rw [hPB x (by simp) f (']' :: rest) (Or.inr (Or.inl rfl)) (by omega)]
        rfl
    | cons y ys =>
      cases fuel with
      | zero => omega
      | succ f =>
        rw [encList_cons2] at hlen ⊢
        simp only [List.length_append, List.length_cons] at hlen
        rw [parseListItems_succ]
        simp only [List.cons_append, List.append_assoc]
        rw [hPB x (by simp) f (',' :: ' ' :: (encList (y :: ys) ++ ']' :: rest))
          (Or.inl rfl) (by omega)]
        simp only []
        rw [ih (by simp) (fun v hv => hPB v (by simp [hv])) f rest hrest
          (by omega)]

theorem parseDictItems_enc :
    ∀ (xs : List (String × PyValue)), xs ≠ [] →
      (∀ p ∈ xs, ParsesBack (Prod.snd p)) →
      ∀ (fuel : Nat) (rest : List Char), restOk rest →
        (encDict xs).length < fuel →
        parseDictItems fuel (encDict xs ++ rbrace :: rest) = some (xs, rest) := by
  intro xs
  induction xs with
  | nil => intro h; exact absurd rfl h
  | cons e xs ih =>
    obtain ⟨k, v⟩ := e
    intro _ hPB fuel rest hrest hlen
    have hPBv : ParsesBack v := hPB (k, v) (by simp)
    cases xs with
    | nil =>
      cases fuel with
      | zero => omega
      | succ f =>
        rw [encDict_one] at hlen ⊢
        simp only [encStrChars, List.length_append, List.length_cons] at hlen
        rw [parseDictItems_succ]
        simp only [encStrChars, List.cons_append, List.append_assoc,
          List.nil_append]
        rw [parseStrAux_flat k.data]
        simp only [List.reverse_nil, List.nil_append, string_mk_data]
        rw [hPBv f (rbrace :: rest) (Or.inr (Or.inr rfl)) (by omega)]
        simp
    | cons e2 es =>
      cases fuel with
      | zero => omega
      | succ f =>
        rw [encDict_cons2] at hlen ⊢
        simp only [encStrChars, List.length_append, List.length_cons] at hlen
        rw [parseDictItems_succ]
        simp only [encStrChars, List.cons_append, List.append_assoc,
          List.nil_append]
        rw [parseStrAux_flat k.data]
        simp only [List.reverse_nil, List.nil_append, string_mk_data]
        rw [hPBv f (',' :: ' ' :: (encDict (e2 :: es) ++ rbrace :: rest))
          (Or.inl rfl) (by omega)]
        have hred := ih (by simp) (fun p hp => hPB p (by simp [hp])) f rest
          hrest (by omega)
        show (match parseDictItems f (encDict (e2 :: es) ++ rbrace :: rest) with
          | none => none
          | some (es2, r3) => some ((k, v) :: es2, r3)) =
            some ((k, v) :: e2 :: es, rest)
        rw [hred]

theorem parsesBack_all : ∀ v, ParsesBack v := by
  refine pyInduction ParsesBack ?_ ?_ ?_ ?_
  · intro t fuel rest hrest hlen
    rw [jsonEncodeL_str, encStrChars] at hlen ⊢
    cases fuel with
    | zero =>
      simp only [List.length_cons, List.length_append] at hlen
      omega
    | succ f =>
      simp only [List.cons_append, List.append_assoc, List.nil_append]
      rw [parseVal_succ, if_pos rfl]
      rw [parseStrAux_flat t.data]
      simp only [List.reverse_nil, List.nil_append, string_mk_data,
        Option.map_some']
  · intro i fuel rest hrest hlen
    rw [jsonEncodeL_int, encIntChars] at hlen ⊢
    have hnd := restOk_not_digit rest hrest
    by_cases hi : i < 0
    · rw [if_pos hi] at hlen ⊢
      cases fuel with
      | zero =>
        simp only [List.length_cons] at hlen
        omega
      | succ f =>
        rw [List.cons_append, parseVal_succ]
        rw [if_neg (by decide : ¬ ('-' : Char) = '"'), if_pos rfl]
        rw [parseNat_natChars i.natAbs rest hnd]
        simp only [Option.map_some']
        have he : -((i.natAbs : Int)) = i := by omega
        rw [he]
    · rw [if_neg hi] at hlen ⊢
      rw [natChars_eq] at hlen ⊢
      cases hd : (if i.natAbs = 0 then [0]
          else (Nat.digits 10 i.natAbs).reverse) with
      | nil =>
        exfalso
        by_cases h0 : i.natAbs = 0
        · rw [if_pos h0] at hd
          cases hd
        · rw [if_neg h0] at hd
          exact (Nat.digits_ne_nil_iff_ne_zero.2 h0) (by simpa using hd)
      | cons d ds =>
        rw [hd] at hlen
        obtain ⟨hdig, -, hq1, hm1, hb1, hlb1, -, -, -⟩ :=
          digitChar_props d (natChars_digits_bound i.natAbs d (by rw [hd]; simp))
        cases fuel with
        | zero =>
          simp only [List.map_cons, List.length_cons] at hlen
          omega
        | succ f =>
          rw [List.map_cons, List.cons_append, parseVal_succ]
          rw [if_neg hq1, if_neg hm1, if_neg hb1, if_neg hlb1, if_pos hdig]
          rw [show digitChar d :: (List.map digitChar ds ++ rest) =
            List.map digitChar (d :: ds) ++ rest from by simp]
          rw [← hd, ← natChars_eq]
          rw [parseNat_natChars i.natAbs rest hnd]
          simp only [Option.map_some']
          have he : ((i.natAbs : Int)) = i := by omega
          rw [he]
  · intro xs hIH fuel rest hrest hlen
    rw [jsonEncodeL_list] at hlen ⊢
    cases xs with
    | nil =>
      cases fuel with
      | zero =>
        simp only [List.length_append, List.length_cons] at hlen
        omega
      | succ f =>
        simp only [encList_nil, List.nil_append, List.cons_append]
        rw [parseVal_succ]
        rw [if_neg (by decide : ¬ ('[' : Char) = '"'),
          if_neg (by decide : ¬ ('[' : Char) = '-'), if_pos rfl]
        simp
    | cons x xs2 =>
      cases fuel with
      | zero =>
        simp only [List.length_cons, List.length_append] at hlen
        omega
      | succ f =>
        simp only [List.length_cons, List.length_append] at hlen
        obtain ⟨c0, t0, hc0, hcne, -, -⟩ := jsonEncodeL_head x
        have hu : ∃ u, encList (x :: xs2) = c0 :: u := by
          cases xs2 with
          | nil =>
            rw [encList_one, hc0]
            exact ⟨t0, rfl⟩
          | cons y ys =>
            rw [encList_cons2, hc0]
            exact ⟨t0 ++ ',' :: ' ' :: encList (y :: ys), rfl⟩
        obtain ⟨u, hu⟩ := hu
        simp only [List.cons_append, List.append_assoc, List.nil_append]
        rw [parseVal_succ]
        rw [if_neg (by decide : ¬ ('[' : Char) = '"'),
          if_neg (by decide : ¬ ('[' : Char) = '-'), if_pos rfl]
        rw [hu]
        simp only [List.cons_append]
        rw [if_neg hcne]
        rw [show c0 :: (u ++ ']' :: rest) = encList (x :: xs2) ++ ']' :: rest
          from by rw [hu, List.cons_append]]
        rw [parseListItems_enc (x :: xs2) (by simp) hIH f rest hrest (by omega)]
        simp only [Option.map_some']
  · intro xs hIH fuel rest hrest hlen
    rw [jsonEncodeL_dict] at hlen ⊢
    cases xs with
    | nil =>
      cases fuel with
      | zero =>
        simp only [List.length_append, List.length_cons] at hlen
        omega
      | succ f =>
        simp only [encDict_nil, List.nil_append, List.cons_append]
        rw [parseVal_succ]
        rw [if_neg (by decide : ¬ lbrace = '"'),
          if_neg (by decide : ¬ lbrace = '-'),
          if_neg (by decide : ¬ lbrace = '['), if_pos rfl]
        simp
    | cons e xs2 =>
      cases fuel with
      | zero =>
        simp only [List.length_cons, List.length_append] at hlen
        omega
      | succ f =>
        simp only [List.length_cons, List.length_append] at hlen
        have hu : ∃ u, encDict (e :: xs2) = '"' :: u := by
          obtain ⟨k, v⟩ := e
          cases xs2 with
          | nil =>
            rw [encDict_one]
            simp only [encStrChars, List.cons_append, List.append_assoc]
            exact ⟨_, rfl⟩
          | cons e2 es =>
            rw [encDict_cons2]
            simp only [encStrChars, List.cons_append, List.append_assoc]
            exact ⟨_, rfl⟩
        obtain ⟨u, hu⟩ := hu
        simp only [List.cons_append, List.append_assoc, List.nil_append]
        rw [parseVal_succ]
        rw [if_neg (by decide : ¬ lbrace = '"'),
          if_neg (by decide : ¬ lbrace = '-'),
          if_neg (by decide : ¬ lbrace = '['), if_pos rfl]
        rw [hu]
        simp only [List.cons_append]
        rw [if_neg (by decide : ¬ ('"' : Char) = rbrace)]
        rw [show ('"' : Char) :: (u ++ rbrace :: rest) =
          encDict (e :: xs2) ++ rbrace :: rest from by rw [hu, List.cons_append]]
        rw [parseDictItems_enc (e :: xs2) (by simp) hIH f rest hrest (by omega)]
        simp only [Option.map_some']

theorem jsonParse_jsonEncode (v : PyValue) : jsonParse (jsonEncode v) = some v := by
  unfold jsonParse jsonEncode
  have h := parsesBack_all v ((jsonEncodeL v).length + 1) [] trivial (by omega)
  rw [List.append_nil] at h
  rw [show (String.mk (jsonEncodeL v)).data = jsonEncodeL v from rfl]
  rw [h]

/-! ## Claims C2, C3, C5, C8 -/

/-- Claim C2 (amended): the prospective total compared against the limit
counts the new entry at its pre-serialization size (key length plus raw
value length) and the existing entries at their stored sizes, the entry
under the same key excluded; a write bringing the total exactly to the
limit succeeds, one bringing it above fails reporting that exact count —
in the `test_storage_limit` scenario, exactly 134 bytes. -/
theorem C2_quota_accounting (c : Codec) (limit : Nat) (db : Storage)
    (bot : Nat) (k : String) (value : PyValue) (stored : String) (rawLen : Nat)
    (hm : c.marshal value = .str stored) (hl : pyLen value = some rawLen) :
    (prospectiveSize db bot k rawLen ≤ (limit : Int) →
      put c limit db bot (.str k) value = .ok (upsert db bot k stored))
    ∧ (prospectiveSize db bot k rawLen > (limit : Int) →
      put c limit db bot (.str k) value =
        .error (.quota (prospectiveSize db bot k rawLen) limit))
    ∧ put jsonCodec 100 capacity_db 7 (.str "too much data")
        (.str "a few bits too long") = .error (.quota 134 100) := by
  refine ⟨?_, ?_, by rfl⟩
  · intro hle
    rw [put_spec c limit db bot k value stored rawLen hm hl,
      if_neg (not_lt.2 hle)]
  · intro hgt
    rw [put_spec c limit db bot k value stored rawLen hm hl, if_pos hgt]

/-- Claim C2 witness: the exact `test_storage_limit` run — the first put
lands exactly on the limit of 100 and succeeds; the second fails reporting
134 bytes. -/
theorem C2_quota_accounting_witness :
    put jsonCodec 100 [] 7 (.str capacity_key)
        (.str (String.mk (List.replicate 78 'x'))) = .ok capacity_db
    ∧ put jsonCodec 100 capacity_db 7 (.str "too much data")
        (.str "a few bits too long") = .error (.quota 134 100) := by
  constructor
  · have h := (C2_quota_accounting jsonCodec 100 [] 7 capacity_key
      (.str (String.mk (List.replicate 78 'x')))
      (String.mk ('"' :: List.replicate 78 'x' ++ ['"'])) 78 rfl rfl).1
      (by decide)
    exact h.trans (by rfl)
  · exact (C2_quota_accounting jsonCodec 100 capacity_db 7 "too much data"
      (.str "a few bits too long") "\"a few bits too long\"" 19 rfl rfl).2.2

/-- Claim C2 counterexample: in the failing `test_storage_limit` put the
store reports 134 bytes, while the claim's serialized-new-entry formula
yields 136 — the compared and reported size is not the serialized size of
the new entry. -/
theorem C2_serialized_accounting_counterexample :
    put jsonCodec 100 capacity_db 7 (.str "too much data")
        (.str "a few bits too long") = .error (.quota 134 100)
    ∧ claimedSerializedSize jsonCodec capacity_db 7 "too much data"
        (.str "a few bits too long") = 136 := by
  exact ⟨rfl, by decide⟩

/-- Claim C3: a put whose prospective size exceeds the limit fails with the
quota error carrying exactly the computed byte count and the limit, whose
message is exactly the documented template, and the storage is returned
unchanged. -/
theorem C3_quota_error_atomic (c : Codec) (limit : Nat) (db : Storage)
    (bot : Nat) (k : String) (value : PyValue) (stored : String) (rawLen : Nat)
    (hm : c.marshal value = .str stored) (hl : pyLen value = some rawLen)
    (hq : prospectiveSize db bot k rawLen > (limit : Int)) :
    putState c limit db bot (.str k) value =
      (db, some (.quota (prospectiveSize db bot k rawLen) limit))
    ∧ errorMessage (.quota (prospectiveSize db bot k rawLen) limit) =
      "Cannot set state. Request would require " ++
        toString (prospectiveSize db bot k rawLen) ++
        " bytes storage. The current storage limit is " ++
        toString limit ++ "." := by
  constructor
  · unfold putState
    rw [put_spec c limit db bot k value stored rawLen hm hl, if_pos hq]
  · rfl

/-- Claim C3 witness: the concrete over-quota put of `test_storage_limit`
leaves the storage untouched and produces the literal 134-byte message the
test asserts. -/
theorem C3_quota_error_atomic_witness :
    putState jsonCodec 100 capacity_db 7 (.str "too much data")
        (.str "a few bits too long") = (capacity_db, some (.quota 134 100))
    ∧ errorMessage (.quota 134 100) =
      "Cannot set state. Request would require 134 bytes storage. " ++
        "The current storage limit is 100." := by
  have h := C3_quota_error_atomic jsonCodec 100 capacity_db 7 "too much data"
    (.str "a few bits too long") "\"a few bits too long\"" 19 rfl rfl (by decide)
  have e : prospectiveSize capacity_db 7 "too much data" 19 = 134 := by decide
  rw [e] at h
  exact ⟨h.1, h.2.trans (by decide)⟩

/-- Claim C5 (amended): `put` validates the key on the raw (pre-marshal)
value and the value on its marshalled (stored) representation, in both
cases before any size computation or storage mutation — the errors do not
depend on the storage contents or the limit; under the identity codec a
non-string raw value is therefore rejected directly. -/
theorem C5_type_validation (c : Codec) (limit : Nat) (db : Storage)
    (bot : Nat) (key value : PyValue) :
    ((∀ s, key ≠ .str s) →
      putState c limit db bot key value = (db, some (.keyType (typeName key))))
    ∧ (∀ k mv, key = .str k → c.marshal value = mv → (∀ s, mv ≠ .str s) →
      putState c limit db bot key value = (db, some (.valueType (typeName mv))))
    ∧ (∀ k, key = .str k → (∀ s, value ≠ .str s) →
      putState identityCodec limit db bot key value =
        (db, some (.valueType (typeName value)))) := by
  refine ⟨?_, ?_, ?_⟩
  · intro hk
    unfold putState put
    cases key with
    | str s => exact absurd rfl (hk s)
    | int n => rfl
    | list xs => rfl
    | dict xs => rfl
  · intro k mv hkey hm hns
    subst hkey
    unfold putState put
    rw [hm]
    cases mv with
    | str s => exact absurd rfl (hns s)
    | int n => rfl
    | list xs => rfl
    | dict xs => rfl
  · intro k hkey hns
    subst hkey
    unfold putState put
    cases value with
    | str s => exact absurd rfl (hns s)
    | int n => rfl
    | list xs => rfl
    | dict xs => rfl

/-- Claim C5 witness: the `test_invalid_calls` scenario — under the
identity codec the structured value is rejected with the exact dict-typed
value message, before any mutation. -/
theorem C5_type_validation_witness :
    putState identityCodec 10000000 [] 7 (.str "some key")
        sample_structured_value = ([], some (.valueType "<class 'dict'>")) :=
  (C5_type_validation identityCodec 10000000 [] 7 (.str "some key")
    sample_structured_value).2.2 "some key" rfl
    (fun _ h => PyValue.noConfusion h)

/-- Claim C5 counterexample: under the default codec `put` accepts the
non-string structured value of `test_marshaling` (so values are not
rejected before serialization), while under the identity codec the very
same call is rejected — swapping the codec for identity does change which
inputs are rejected. -/
theorem C5_premarshal_validation_counterexample :
    put jsonCodec 10000000 [] 7 (.str "some key") sample_structured_value =
      .ok [(7, "some key", "\x7b\"foo\": \"bar\", \"baz\": [42, \"cux\"]\x7d")]
    ∧ put identityCodec 10000000 [] 7 (.str "some key")
        sample_structured_value = .error (.valueType "<class 'dict'>") :=
  ⟨rfl, rfl⟩

theorem find?_filter_of_imp {α : Type} (p q : α → Bool)
    (h : ∀ r, p r = true → q r = true) :
    ∀ l : List α, (l.filter q).find? p = l.find? p := by
  intro l
  induction l with
  | nil => rfl
  | cons x t ih =>
    cases hqx : q x with
    | true =>
      cases hpx : p x <;>
        simp [List.filter_cons, hqx, List.find?_cons, hpx, ih]
    | false =>
      have hpx : p x = false := by
        cases hpc : p x with
        | false => rfl
        | true => rw [h x hpc] at hqx; cases hqx
      simp [List.filter_cons, hqx, List.find?_cons, hpx, ih]

theorem lookupRow_removed (db : Storage) (bot : Nat) (k : String) :
    lookupRow (db.filter fun r => !(r.1 == bot && r.2.1 == k)) bot k = none := by
  unfold lookupRow
  have hf : (db.filter fun r => !(r.1 == bot && r.2.1 == k)).find?
      (fun r => r.1 == bot && r.2.1 == k) = none := by
    rw [List.find?_eq_none]
    intro r hr hp
    have h2 := (List.mem_filter.1 hr).2
    simp [hp] at h2
  rw [hf]
  rfl

/-- Claim C8: for a key absent from a bot's namespace, `contains` is false
and never raises, `get` and `remove` fail with `NotFound` without mutating;
after a successful `remove`, `contains` is false, every other entry is
untouched, and a second `remove` fails with `NotFound`. -/
theorem C8_absent_key_behaviour (c : Codec) (db : Storage) (bot : Nat)
    (k : String) :
    (lookupRow db bot k = none →
      contains db bot k = false
      ∧ get c db bot k = .error .notFound
      ∧ removeState db bot k = (db, some .notFound))
    ∧ (∀ db2, remove db bot k = .ok db2 →
      contains db2 bot k = false
      ∧ (∀ bot2 k2, ¬ (bot2 = bot ∧ k2 = k) →
          lookupRow db2 bot2 k2 = lookupRow db bot2 k2)
      ∧ remove db2 bot k = .error .notFound) := by
  constructor
  · intro h
    have hc : contains db bot k = false := by
      unfold contains
      rw [h]
      rfl
    refine ⟨hc, ?_, ?_⟩
    · unfold get
      rw [h]
    · unfold removeState remove
      rw [hc]
      rfl
  · intro db2 h
    unfold remove at h
    cases hc : contains db bot k with
    | false => rw [hc] at h; cases h
    | true =>
      rw [hc] at h
      simp only [if_true] at h
      cases h
      have hcont : contains (db.filter fun r => !(r.1 == bot && r.2.1 == k))
          bot k = false := by
        unfold contains
        rw [lookupRow_removed]
        rfl
      refine ⟨hcont, ?_, ?_⟩
      · intro bot2 k2 hne
        unfold lookupRow
        rw [find?_filter_of_imp]
        intro r hp
        obtain ⟨h1, h2⟩ : r.1 = bot2 ∧ r.2.1 = k2 := by simpa using hp
        have hbb : (bot2 == bot && k2 == k) = false := by
          cases Decidable.em (bot2 = bot) with
          | inl hb =>
            cases Decidable.em (k2 = k) with
            | inl hk2 => exact absurd ⟨hb, hk2⟩ hne
            | inr hk2 => simp [hk2]
          | inr hb => simp [hb]
        rw [h1, h2]
        simp only [hbb]
        rfl
      · unfold remove
        rw [hcont]
        rfl

/-- Claim C8 witness: the `test_entry_removal` run — `nonexistent key`
behaves as absent; removing `some key` leaves `another key` intact, makes
`contains` false, and a second removal fails with `NotFound`. -/
theorem C8_absent_key_behaviour_witness :
    (contains removal_db 7 "nonexistent key" = false
      ∧ get jsonCodec removal_db 7 "nonexistent key" = .error .notFound
      ∧ removeState removal_db 7 "nonexistent key" = (removal_db, some .notFound))
    ∧ contains removal_db2 7 "some key" = false
    ∧ lookupRow removal_db2 7 "another key" = lookupRow removal_db 7 "another key"
    ∧ remove removal_db2 7 "some key" = .error .notFound := by
  have h2 := (C8_absent_key_behaviour jsonCodec removal_db 7 "some key").2
    removal_db2 (by rfl)
  exact ⟨(C8_absent_key_behaviour jsonCodec removal_db 7 "nonexistent key").1
      (by decide),
    h2.1, h2.2.1 7 "another key" (by simp), h2.2.2⟩

/-! ## Claims C9, C7, C4, C10 -/

theorem get_eq_of_lookup (c : Codec) (db : Storage) (bot : Nat)
    (k : String) (stored : String) (h : lookupRow db bot k = some stored) :
    get c db bot k =
      match c.demarshal stored with
      | some w => .ok w
      | none => .error .demarshalFailure := by
  unfold get
  rw [h]

/-- Claim C9: the default codec round-trips every structured value —
`demarshal (marshal v) = v` — and consequently a `put` followed by a `get`
of the same key on the same bot's store returns the stored value. -/
theorem C9_codec_round_trip (v : PyValue) :
    jsonCodec.demarshal (jsonEncode v) = some v
    ∧ (∀ (limit : Nat) (db db2 : Storage) (bot : Nat) (k : String),
        put jsonCodec limit db bot (.str k) v = .ok db2 →
        get jsonCodec db2 bot k = .ok v) := by
  constructor
  · exact jsonParse_jsonEncode v
  · intro limit db db2 bot k h
    obtain ⟨k2, stored, rawLen, hk, hm, hl, -, hdb⟩ :=
      put_ok_elim _ _ _ _ _ _ _ h
    cases hk
    subst hdb
    have hst : stored = jsonEncode v := by
      have h2 : PyValue.str (jsonEncode v) = PyValue.str stored := hm
      cases h2
      rfl
    subst hst
    rw [get_eq_of_lookup jsonCodec _ bot k (jsonEncode v)
      (lookupRow_upsert_self bot k (jsonEncode v) db)]
    rw [show jsonCodec.demarshal (jsonEncode v) = some v from
      jsonParse_jsonEncode v]

/-- Claim C9 witness: the `test_marshaling` value round-trips through the
codec and through the store. -/
theorem C9_codec_round_trip_witness :
    jsonCodec.demarshal (jsonEncode sample_structured_value) =
      some sample_structured_value
    ∧ get jsonCodec
        [(7, "some key", "\x7b\"foo\": \"bar\", \"baz\": [42, \"cux\"]\x7d")]
        7 "some key" = .ok sample_structured_value :=
  ⟨(C9_codec_round_trip sample_structured_value).1,
    (C9_codec_round_trip sample_structured_value).2 10000000 []
      [(7, "some key", "\x7b\"foo\": \"bar\", \"baz\": [42, \"cux\"]\x7d")]
      7 "some key" rfl⟩

theorem filter_upsert_count (bot : Nat) (key stored : String) :
    ∀ db : Storage,
      ((upsert db bot key stored).filter
          fun r => r.1 == bot && r.2.1 == key).length =
        max ((db.filter fun r => r.1 == bot && r.2.1 == key).length) 1 := by
  intro db
  induction db with
  | nil => simp [upsert, List.filter_cons]
  | cons r t ih =>
    by_cases hr : (r.1 == bot && r.2.1 == key) = true
    · rw [upsert, if_pos hr]
      simp only [List.filter_cons, hr, if_true]
      simp
    · rw [upsert, if_neg hr]
      simp only [List.filter_cons, hr, Bool.false_eq_true, if_false]
      exact ih

/-- Claim C7: `put(k, v1)` then `put(k, v2)` upserts — `get(k)` returns
`v2`, the bot holds exactly one row under `k`, and the final usage counts
only `v2`'s contribution for `k`, never `v1`'s. -/
theorem C7_overwrite (limit : Nat) (db db1 db2 : Storage) (bot : Nat)
    (k : String) (v1 v2 : PyValue)
    (h1 : put jsonCodec limit db bot (.str k) v1 = .ok db1)
    (h2 : put jsonCodec limit db1 bot (.str k) v2 = .ok db2) :
    get jsonCodec db2 bot k = .ok v2
    ∧ (db2.filter fun r => r.1 == bot && r.2.1 == k).length =
        max ((db.filter fun r => r.1 == bot && r.2.1 == k).length) 1
    ∧ (botUsage db2 bot : Int) =
        (botUsage db bot : Int) - (oldEntrySize db bot k : Int)
          + ((k.length + (jsonEncode v2).length : Nat) : Int) := by
  obtain ⟨ka, st1, rl1, hka, hm1, -, -, hdb1⟩ := put_ok_elim _ _ _ _ _ _ _ h1
  cases hka
  have hst1 : st1 = jsonEncode v1 := by
    have hx : PyValue.str (jsonEncode v1) = PyValue.str st1 := hm1
    cases hx
    rfl
  subst hst1
  subst hdb1
  obtain ⟨kb, st2, rl2, hkb, hm2, -, -, hdb2⟩ := put_ok_elim _ _ _ _ _ _ _ h2
  cases hkb
  have hst2 : st2 = jsonEncode v2 := by
    have hx : PyValue.str (jsonEncode v2) = PyValue.str st2 := hm2
    cases hx
    rfl
  subst hst2
  subst hdb2
  refine ⟨?_, ?_, ?_⟩
  · rw [get_eq_of_lookup jsonCodec _ bot k (jsonEncode v2)
      (lookupRow_upsert_self bot k (jsonEncode v2) _)]
    rw [show jsonCodec.demarshal (jsonEncode v2) = some v2 from
      jsonParse_jsonEncode v2]
  · rw [filter_upsert_count, filter_upsert_count]
    omega
  · have ha := botUsage_upsert_self bot k (jsonEncode v1) db
    have hb := botUsage_upsert_self bot k (jsonEncode v2)
      (upsert db bot k (jsonEncode v1))
    have ho : oldEntrySize (upsert db bot k (jsonEncode v1)) bot k =
        k.length + (jsonEncode v1).length := by
      unfold oldEntrySize
      rw [lookupRow_upsert_self]
    rw [hb, ho, ha]
    push_cast
    omega

/-- Claim C7 witness: the `test_basic_storage_and_retrieval` overwrite —
after storing `some value` then `a new value` under `some key`, `get`
returns `a new value`, there is a single row, and usage counts only the
new value. -/
theorem C7_overwrite_witness :
    get jsonCodec [(7, "some key", "\"a new value\"")] 7 "some key" =
      .ok (.str "a new value")
    ∧ ([(7, "some key", "\"a new value\"")].filter
        fun r => r.1 == 7 && r.2.1 == "some key").length =
      max ((([] : Storage).filter
        fun r => r.1 == 7 && r.2.1 == "some key").length) 1
    ∧ (botUsage [(7, "some key", "\"a new value\"")] 7 : Int) =
        (botUsage [] 7 : Int) - (oldEntrySize [] 7 "some key" : Int)
          + ((("some key").length
            + (jsonEncode (.str "a new value")).length : Nat) : Int) :=
  C7_overwrite 10000000 [] [(7, "some key", "\"some value\"")]
    [(7, "some key", "\"a new value\"")] 7 "some key"
    (.str "some value") (.str "a new value") rfl rfl

/-- Claim C4: a successful put by one bot leaves every other bot's
namespace untouched — its rows, usage, `NotFound` failures and put
decisions are unchanged — and two bots storing under the same key each
read back their own value. -/
theorem C4_bot_isolation (c : Codec) (limit : Nat) (db db2 : Storage)
    (botA botB : Nat) (key value : PyValue) (hne : botB ≠ botA)
    (h : put c limit db botA key value = .ok db2) :
    (∀ k2, lookupRow db2 botB k2 = lookupRow db botB k2)
    ∧ botUsage db2 botB = botUsage db botB
    ∧ (∀ k2, contains db botB k2 = false →
        get c db2 botB k2 = .error .notFound)
    ∧ (∀ (k2 : String) (v2 : PyValue),
        (∃ d, put c limit db2 botB (.str k2) v2 = .ok d) ↔
        (∃ d, put c limit db botB (.str k2) v2 = .ok d))
    ∧ (∀ (k0 : String) (vA vB : PyValue) (dbA dbAB : Storage),
        put jsonCodec limit db botA (.str k0) vA = .ok dbA →
        put jsonCodec limit dbA botB (.str k0) vB = .ok dbAB →
        get jsonCodec dbAB botA k0 = .ok vA ∧
          get jsonCodec dbAB botB k0 = .ok vB) := by
  obtain ⟨kA, stored, rawLen, hk, -, -, -, hdb⟩ := put_ok_elim _ _ _ _ _ _ _ h
  subst hdb
  have hlk : ∀ k2, lookupRow (upsert db botA kA stored) botB k2 =
      lookupRow db botB k2 := fun k2 =>
    lookupRow_upsert_ne botA botB kA k2 stored (fun hc => hne hc.1) db
  have hus : botUsage (upsert db botA kA stored) botB = botUsage db botB :=
    botUsage_upsert_ne_bot botA botB kA stored hne db
  have hps : ∀ (k2 : String) (rl : Nat),
      prospectiveSize (upsert db botA kA stored) botB k2 rl =
        prospectiveSize db botB k2 rl := by
    intro k2 rl
    unfold prospectiveSize oldEntrySize
    rw [hus, hlk k2]
  refine ⟨hlk, hus, ?_, ?_, ?_⟩
  · intro k2 hc
    unfold get
    rw [hlk k2]
    unfold contains at hc
    cases hlk2 : lookupRow db botB k2 with
    | none => rfl
    | some w => rw [hlk2] at hc; cases hc
  · intro k2 v2
    constructor
    · rintro ⟨d, hd⟩
      obtain ⟨k2b, st2, rl2, hk2, hm2, hl2, hle2, -⟩ :=
        put_ok_elim _ _ _ _ _ _ _ hd
      cases hk2
      refine ⟨upsert db botB k2 st2, ?_⟩
      rw [put_spec c limit db botB k2 v2 st2 rl2 hm2 hl2]
      rw [if_neg (not_lt.2 ((hps k2 rl2) ▸ hle2))]
    · rintro ⟨d, hd⟩
      obtain ⟨k2b, st2, rl2, hk2, hm2, hl2, hle2, -⟩ :=
        put_ok_elim _ _ _ _ _ _ _ hd
      cases hk2
      refine ⟨upsert (upsert db botA kA stored) botB k2 st2, ?_⟩
      rw [put_spec c limit (upsert db botA kA stored) botB k2 v2 st2 rl2
        hm2 hl2]
      rw [if_neg (not_lt.2 ((hps k2 rl2).symm ▸ hle2))]
  · intro k0 vA vB dbA dbAB hA hB
    obtain ⟨k0a, stA, rlA, hk0a, hmA, -, -, hdbA⟩ :=
      put_ok_elim _ _ _ _ _ _ _ hA
    cases hk0a
    have hstA : stA = jsonEncode vA := by
      have hx : PyValue.str (jsonEncode vA) = PyValue.str stA := hmA
      cases hx
      rfl
    subst hstA
    subst hdbA
    obtain ⟨k0b, stB, rlB, hk0b, hmB, -, -, hdbB⟩ :=
      put_ok_elim _ _ _ _ _ _ _ hB
    cases hk0b
    have hstB : stB = jsonEncode vB := by
      have hx : PyValue.str (jsonEncode vB) = PyValue.str stB := hmB
      cases hx
      rfl
    subst hstB
    subst hdbB
    constructor
    · have hlk0 : lookupRow (upsert (upsert db botA k0 (jsonEncode vA))
          botB k0 (jsonEncode vB)) botA k0 = some (jsonEncode vA) := by
        rw [lookupRow_upsert_ne botB botA k0 k0 (jsonEncode vB)
          (fun hc => hne hc.1.symm), lookupRow_upsert_self]
      rw [get_eq_of_lookup jsonCodec _ botA k0 (jsonEncode vA) hlk0]
      rw [show jsonCodec.demarshal (jsonEncode vA) = some vA from
        jsonParse_jsonEncode vA]
    · rw [get_eq_of_lookup jsonCodec _ botB k0 (jsonEncode vB)
        (lookupRow_upsert_self botB k0 (jsonEncode vB) _)]
      rw [show jsonCodec.demarshal (jsonEncode vB) = some vB from
        jsonParse_jsonEncode vB]

/-- Claim C4 witness: bot 1 stores under `some key`; bot 2 still gets
`NotFound` there, and when both bots store under the same key each reads
back its own value (the `test_basic_storage_and_retrieval` isolation
checks). -/
theorem C4_bot_isolation_witness :
    get jsonCodec [(1, "some key", "\"x\"")] 2 "some key" = .error .notFound
    ∧ (get jsonCodec [(1, "some key", "\"a\""), (2, "some key", "\"b\"")]
        1 "some key" = .ok (.str "a")
      ∧ get jsonCodec [(1, "some key", "\"a\""), (2, "some key", "\"b\"")]
        2 "some key" = .ok (.str "b")) := by
  have h := C4_bot_isolation jsonCodec 100 [] [(1, "some key", "\"x\"")] 1 2
    (.str "some key") (.str "x") (by decide) rfl
  exact ⟨h.2.2.1 "some key" rfl,
    h.2.2.2.2 "some key" (.str "a") (.str "b") [(1, "some key", "\"a\"")]
      [(1, "some key", "\"a\""), (2, "some key", "\"b\"")] rfl rfl⟩

theorem heroku_template_data :
    heroku_template.data = [lbrace, rbrace, ' ', 'd', 'e', 'p', 'l', 'o', 'y',
      'e', 'd', ' ', 'v', 'e', 'r', 's', 'i', 'o', 'n', ' ', lbrace, rbrace,
      ' ', 'o', 'f', ' ', '[', lbrace, rbrace, ']', '(', lbrace, rbrace, ')',
      '\n', '>', ' ', lbrace, rbrace] := rfl

set_option maxHeartbeats 2000000 in
theorem heroku_format (a b c d e : String) :
    String.mk (pyFormatL heroku_template.data
      [a.data, b.data, c.data, d.data, e.data]) =
      a ++ " deployed version " ++ b ++ " of [" ++ c ++ "](" ++ d ++ ")" ++
        "\n> " ++ e := by
  have hinj : ∀ s t : String, s.data = t.data → s = t := by
    intro s t h
    cases s
    cases t
    cases h
    rfl
  apply hinj
  rw [heroku_template_data]
  simp +decide [pyFormatL, String.data_append]

/-- Claim C10: an authorized request carrying `head`, `app`, `user`, `url`
and `git_log` makes `api_heroku_webhook` send exactly one stream message —
to the `stream` parameter's value, defaulting to `heroku`, with topic
`app` and content exactly the deploy template — and return JSON success. -/
theorem C10_heroku_webhook (params : List (String × String))
    (head app user url git_log : String)
    (h1 : reqParam params "head" = some head)
    (h2 : reqParam params "app" = some app)
    (h3 : reqParam params "user" = some user)
    (h4 : reqParam params "url" = some url)
    (h5 : reqParam params "git_log" = some git_log) :
    api_heroku_webhook params =
      ([⟨(reqParam params "stream").getD "heroku", app,
        user ++ " deployed version " ++ head ++ " of [" ++ app ++ "](" ++
          url ++ ")" ++ "\n> " ++ git_log⟩], .json_success) := by
  simp only [api_heroku_webhook, h1, h2, h3, h4, h5]
  rw [heroku_format user head app url git_log]

/-- Claim C10 witness: a concrete request without a `stream` parameter
goes to the default `heroku` stream with the formatted deploy message. -/
theorem C10_heroku_webhook_witness :
    api_heroku_webhook [("head", "e123"), ("app", "myapp"),
      ("user", "alice"), ("url", "http://u"), ("git_log", "fix")] =
      ([⟨"heroku", "myapp",
        "alice" ++ " deployed version " ++ "e123" ++ " of [" ++ "myapp" ++
          "](" ++ "http://u" ++ ")" ++ "\n> " ++ "fix"⟩], .json_success) :=
  C10_heroku_webhook [("head", "e123"), ("app", "myapp"), ("user", "alice"),
    ("url", "http://u"), ("git_log", "fix")] "e123" "myapp" "alice"
    "http://u" "fix" rfl rfl rfl rfl rfl

end Zulip
